import Mathlib

/-!
Verification development for a CHIP-8 emulator core (`src/instruction.rs`,
`src/cpu.rs`, `src/register.rs`).

Machine integers are modelled as `Nat` with explicit `% 2^w` where the Rust
code wraps (`u8` arithmetic is `% 256`, `u16` arithmetic is `% 65536`).
Fallible operations return `Except String` exactly where the Rust code
returns `Result<_, String>`.  Rust operations that can panic in every build
profile (slice/array indexing out of bounds, `gen_range` on an empty range)
are modelled by `Option`, with `none` standing for a panic.
-/

namespace Chip8Spec

/-- The instruction set, mirroring `enum Instruction` in `src/instruction.rs`.
Operand order and arity follow the Rust declaration exactly
(`Draw(ShortVal, Reg, Reg)` carries x, y, n in that order as used by the CPU). -/
inductive Instruction where
  | Clr : Instruction
  | Rts : Instruction
  | Draw : Nat → Nat → Nat → Instruction
  | Sys : Nat → Instruction
  | Jump : Nat → Instruction
  | Call : Nat → Instruction
  | LoadI : Nat → Instruction
  | JumpI : Nat → Instruction
  | Ske : Nat → Nat → Instruction
  | Skne : Nat → Nat → Instruction
  | Load : Nat → Nat → Instruction
  | Add : Nat → Nat → Instruction
  | Rand : Nat → Nat → Instruction
  | Skre : Nat → Nat → Instruction
  | Skrne : Nat → Nat → Instruction
  | Move : Nat → Nat → Instruction
  | Or : Nat → Nat → Instruction
  | And : Nat → Nat → Instruction
  | Xor : Nat → Nat → Instruction
  | Addr : Nat → Nat → Instruction
  | Sub : Nat → Nat → Instruction
  | Shr : Nat → Nat → Instruction
  | Shl : Nat → Nat → Instruction
  | Skpr : Nat → Instruction
  | Skup : Nat → Instruction
  | Moved : Nat → Instruction
  | Keyd : Nat → Instruction
  | LoadD : Nat → Instruction
  | LoadS : Nat → Instruction
  | AddI : Nat → Instruction
  | Ldspr : Nat → Instruction
  | Bcd : Nat → Instruction
  | Stor : Nat → Instruction
  | Read : Nat → Instruction
deriving DecidableEq

/-- Extractor `fn addr(x: u16) -> Addr`, i.e. `x & 0x0FFF`, from `src/instruction.rs`. -/
def addr (x : Nat) : Nat := x &&& 0x0FFF

/-- Extractor `fn imm`: `(x & 0x00FF) as RegVal`. -/
def imm (x : Nat) : Nat := x &&& 0x00FF

/-- Extractor `fn r1`: `((x & 0x0F00) >> 8) as Reg`. -/
def r1 (x : Nat) : Nat := (x &&& 0x0F00) >>> 8

/-- Extractor `fn r2`: `((x & 0x00F0) >> 4) as Reg`. -/
def r2 (x : Nat) : Nat := (x &&& 0x00F0) >>> 4

/-- Decode error text.  The Rust code formats the offending word with
`format!("Invalid Instruction: {:#x}", x)`; the hexadecimal formatting is
abstracted to decimal `toString`, which no claim depends on. -/
def invalidMsg (x : Nat) : String := "Invalid Instruction: " ++ toString x

/-- Decoder `impl TryFrom<u16> for Instruction` from `src/instruction.rs`: dispatch on
the top nibble, then on the secondary fields. -/
def decode (x : Nat) : Except String Instruction :=
  match x &&& 0xF000 with
  | 0x0000 =>
    match x with
    | 0x00E0 => .ok .Clr
    | 0x00EE => .ok .Rts
    | _ => .ok (.Sys (addr x))
  | 0x1000 => .ok (.Jump (addr x))
  | 0x2000 => .ok (.Call (addr x))
  | 0x3000 => .ok (.Ske (r1 x) (imm x))
  | 0x4000 => .ok (.Skne (r1 x) (imm x))
  | 0x5000 =>
    match x &&& 0x000F with
    | 0x0 => .ok (.Skre (r1 x) (r2 x))
    | _ => .error (invalidMsg x)
  | 0x6000 => .ok (.Load (r1 x) (imm x))
  | 0x7000 => .ok (.Add (r1 x) (imm x))
  | 0x8000 =>
    match x &&& 0x000F with
    | 0x0 => .ok (.Move (r1 x) (r2 x))
    | 0x1 => .ok (.Or (r1 x) (r2 x))
    | 0x2 => .ok (.And (r1 x) (r2 x))
    | 0x3 => .ok (.Xor (r1 x) (r2 x))
    | 0x4 => .ok (.Addr (r1 x) (r2 x))
    | 0x5 => .ok (.Sub (r1 x) (r2 x))
    | 0x6 => .ok (.Shr (r1 x) (r2 x))
    | 0xE => .ok (.Shl (r1 x) (r2 x))
    | _ => .error (invalidMsg x)
  | 0x9000 =>
    match x &&& 0x000F with
    | 0x0 => .ok (.Skrne (r1 x) (r2 x))
    | _ => .error (invalidMsg x)
  | 0xA000 => .ok (.LoadI (addr x))
  | 0xB000 => .ok (.JumpI (addr x))
  | 0xC000 => .ok (.Rand (r1 x) (imm x))
  | 0xD000 => .ok (.Draw (r1 x) (r2 x) (x &&& 0x000F))
  | 0xE000 =>
    match x &&& 0x00FF with
    | 0x9E => .ok (.Skpr (r1 x))
    | 0xA1 => .ok (.Skup (r1 x))
    | _ => .error (invalidMsg x)
  | 0xF000 =>
    match x &&& 0x00FF with
    | 0x07 => .ok (.Moved (r1 x))
    | 0x0A => .ok (.Keyd (r1 x))
    | 0x15 => .ok (.LoadD (r1 x))
    | 0x18 => .ok (.LoadS (r1 x))
    | 0x1E => .ok (.AddI (r1 x))
    | 0x29 => .ok (.Ldspr (r1 x))
    | 0x33 => .ok (.Bcd (r1 x))
    | 0x55 => .ok (.Stor (r1 x))
    | 0x65 => .ok (.Read (r1 x))
    | _ => .error (invalidMsg x)
  | _ => .error (invalidMsg x)

/-- Encoder `impl From<Instruction> for u16` from `src/instruction.rs`, transcribed
bit for bit.  Note that for the two-register opcodes the source computes
`0x00F0 & r2 as u16`, masking the second register index with `0x00F0`
without shifting it left by 4 (unlike the `Draw` arm, which shifts `y`). -/
def encode (i : Instruction) : Nat :=
  match i with
  | .Clr => 0x00E0
  | .Rts => 0x00EE
  | .Draw x y n =>
      0xD000 ||| ((x <<< 8) &&& 0x0F00) ||| ((y <<< 4) &&& 0x00F0) ||| (n &&& 0x000F)
  | .Sys a => a &&& 0x0FFF
  | .Jump a => 0x1000 ||| (a &&& 0x0FFF)
  | .Call a => 0x2000 ||| (a &&& 0x0FFF)
  | .LoadI a => 0xA000 ||| (a &&& 0x0FFF)
  | .JumpI a => 0xB000 ||| (a &&& 0x0FFF)
  | .Ske r v => 0x3000 ||| (0x0F00 &&& (r <<< 8)) ||| (0x00FF &&& v)
  | .Skne r v => 0x4000 ||| (0x0F00 &&& (r <<< 8)) ||| (0x00FF &&& v)
  | .Load r v => 0x6000 ||| (0x0F00 &&& (r <<< 8)) ||| (0x00FF &&& v)
  | .Add r v => 0x7000 ||| (0x0F00 &&& (r <<< 8)) ||| (0x00FF &&& v)
  | .Rand r v => 0xC000 ||| (0x0F00 &&& (r <<< 8)) ||| (0x00FF &&& v)
  | .Skre a b => 0x5000 ||| (0x0F00 &&& (a <<< 8)) ||| (0x00F0 &&& b)
  | .Skrne a b => 0x9000 ||| (0x0F00 &&& (a <<< 8)) ||| (0x00F0 &&& b)
  | .Move a b => 0x8000 ||| (0x0F00 &&& (a <<< 8)) ||| (0x00F0 &&& b)
  | .Or a b => 0x8001 ||| (0x0F00 &&& (a <<< 8)) ||| (0x00F0 &&& b)
  | .And a b => 0x8002 ||| (0x0F00 &&& (a <<< 8)) ||| (0x00F0 &&& b)
  | .Xor a b => 0x8003 ||| (0x0F00 &&& (a <<< 8)) ||| (0x00F0 &&& b)
  | .Addr a b => 0x8004 ||| (0x0F00 &&& (a <<< 8)) ||| (0x00F0 &&& b)
  | .Sub a b => 0x8005 ||| (0x0F00 &&& (a <<< 8)) ||| (0x00F0 &&& b)
  | .Shr a b => 0x8006 ||| (0x0F00 &&& (a <<< 8)) ||| (0x00F0 &&& b)
  | .Shl a b => 0x800E ||| (0x0F00 &&& (a <<< 8)) ||| (0x00F0 &&& b)
  | .Skpr r => 0xE09E ||| (0x0F00 &&& (r <<< 8))
  | .Skup r => 0xE0A1 ||| (0x0F00 &&& (r <<< 8))
  | .Moved r => 0xF007 ||| (0x0F00 &&& (r <<< 8))
  | .Keyd r => 0xF00A ||| (0x0F00 &&& (r <<< 8))
  | .LoadD r => 0xF015 ||| (0x0F00 &&& (r <<< 8))
  | .LoadS r => 0xF018 ||| (0x0F00 &&& (r <<< 8))
  | .AddI r => 0xF01E ||| (0x0F00 &&& (r <<< 8))
  | .Ldspr r => 0xF029 ||| (0x0F00 &&& (r <<< 8))
  | .Bcd r => 0xF033 ||| (0x0F00 &&& (r <<< 8))
  | .Stor r => 0xF055 ||| (0x0F00 &&& (r <<< 8))
  | .Read r => 0xF065 ||| (0x0F00 &&& (r <<< 8))

/-- Outcome of one step of execution, mirroring `enum StepResult` in
`src/cpu.rs`: `Continue b` carries whether the display was updated. -/
inductive StepResult where
  | Continue : Bool → StepResult
  | Loop : StepResult
  | End : StepResult
deriving DecidableEq

/-- The machine state: `struct Chip8` from `src/cpu.rs` together with the
shared `Chip8IO` surface it holds behind `Arc<Mutex<..>>` (`keys` is the
`keystate` array, `display` the framebuffer).  `regs` is the register file
`v: [u8; 16]` of `src/register.rs` (read at indices 0–15), `regI` its
address register `i: u16`; the vestigial `sp` field is never read or
written by the CPU and is omitted.  `tick` is the `time::Instant` of the
last delay tick, modelled as a millisecond timestamp. -/
structure Chip8 where
  stack : List Nat
  pc : Nat
  regs : Nat → Nat
  regI : Nat
  delay : Nat
  tick : Nat
  memory : Nat → Nat
  keys : Nat → Bool
  display : Nat → Nat → Bool
  paused : Bool

/-- Write register `j` (`self.reg[j] = v`). -/
def Chip8.setReg (s : Chip8) (j v : Nat) : Chip8 :=
  { s with regs := fun k => if k = j then v else s.regs k }

/-- Write memory byte `a` (`self.memory[a] = v`); bounds are checked at the
use sites that model the panicking array index. -/
def Chip8.setMem (s : Chip8) (a v : Nat) : Chip8 :=
  { s with memory := fun k => if k = a then v else s.memory k }

/-- Set the address register `i`. -/
def Chip8.setRegI (s : Chip8) (v : Nat) : Chip8 := { s with regI := v }

/-- Write one framebuffer cell (`display[r][c] = v`). -/
def Chip8.setPix (s : Chip8) (r c : Nat) (v : Bool) : Chip8 :=
  { s with display := fun p q => if p = r ∧ q = c then v else s.display p q }

/-- Helper `fn advance(&mut self, amount: u16)`: `self.pc += amount` (u16 add). -/
def Chip8.advance (s : Chip8) (amount : Nat) : Chip8 :=
  { s with pc := (s.pc + amount) % 65536 }

/-- The delay tick at the top of `step`: if more than 16 ms have elapsed
since the last tick (`now - self.tick > Duration::from_millis(16)`),
decrement the delay counter with floor at zero (`saturating_sub`, which is
exactly `Nat` subtraction) and record the new tick time. -/
def tickUpd (now : Nat) (s : Chip8) : Chip8 :=
  if s.tick + 16 < now then { s with delay := s.delay - 1, tick := now } else s

/-- The 16-bit big-endian opcode word at the program counter:
`u16::from_be_bytes([memory[pc], memory[pc + 1]])`. -/
def fetchWord (s : Chip8) : Nat := s.memory s.pc * 256 + s.memory (s.pc + 1)

/-- One sprite bit of the Draw loop body: `bit` is
`(byte & (1 << (7 - bitidx))) != 0`; a collision with a lit pixel sets the
flag register to 1, then the pixel is XORed. -/
def drawBit (bit : Bool) (row col : Nat) (s : Chip8) : Chip8 :=
  let cell := s.display (row % 32) (col % 64)
  let s1 := if cell && bit then s.setReg 15 1 else s
  s1.setPix (row % 32) (col % 64) (xor cell bit)

/-- The inner `for bitidx in 0..8` loop of Draw, processing the first `k`
bits of `byte` (most significant first) at columns `col0, col0+1, …`. -/
def drawBits (byte row col0 : Nat) : Nat → Chip8 → Chip8
  | 0, s => s
  | k + 1, s => drawBit (byte.testBit (7 - k)) row (col0 + k) (drawBits byte row col0 k s)

/-- The outer `for byte in &self.memory[memidx..memidx + n]` loop of Draw:
row `r` uses sprite byte `mem (i + r)` and re-reads register `x` for its
starting column (the source reads `self.reg[x]` afresh for every byte). -/
def drawRows (mem : Nat → Nat) (x i row0 : Nat) : Nat → Chip8 → Chip8
  | 0, s => s
  | r + 1, s =>
      let t := drawRows mem x i row0 r s
      drawBits (mem (i + r)) (row0 + r) (t.regs x) 8 t

/-- The `for r in 0..=x` loop of `Stor`, processing registers `0, …, k-1`:
each iteration writes `memory[i] = reg[r]` (panicking — `none` — when
`i ≥ 4096`) and then increments the address register (u16 add). -/
def storN : Nat → Chip8 → Option Chip8
  | 0, s => some s
  | k + 1, s =>
      (storN k s).bind fun t =>
        if t.regI < 4096 then
          some ((t.setMem t.regI (t.regs k)).setRegI ((t.regI + 1) % 65536))
        else none

/-- The `for r in 0..=x` loop of `Read`: each iteration reads
`memory[i]` into `reg[r]` (panicking when `i ≥ 4096`) and increments the
address register. -/
def readN : Nat → Chip8 → Option Chip8
  | 0, s => some s
  | k + 1, s =>
      (readN k s).bind fun t =>
        if t.regI < 4096 then
          some ((t.setReg k (t.memory t.regI)).setRegI ((t.regI + 1) % 65536))
        else none

/-- Dispatch of one decoded instruction: the `match self.current_instruction()?`
body of `Chip8::step` in `src/cpu.rs`, after the pause check, the delay tick
and the fetch/decode.  `rnd` is the oracle for `rand::thread_rng()`
(`gen_range(0..n)` is modelled as `rnd % n`, and panics — `none` — when the
range `0..n` is empty).  `none` models a Rust panic; u8 arithmetic wraps
`% 256` and u16 arithmetic `% 65536` as in release builds. -/
def exec (rnd : Nat) (i : Instruction) (s : Chip8) : Option (Chip8 × Except String StepResult) :=
  match i with
  | .Move x y => some ((s.setReg x (s.regs y)).advance 2, .ok (.Continue false))
  | .Or x y => some ((s.setReg x (s.regs x ||| s.regs y)).advance 2, .ok (.Continue false))
  | .And x y => some ((s.setReg x (s.regs x &&& s.regs y)).advance 2, .ok (.Continue false))
  | .Xor x y => some ((s.setReg x (s.regs x ^^^ s.regs y)).advance 2, .ok (.Continue false))
  | .Addr x y =>
      if s.regs x + s.regs y ≤ 255 then
        some (((s.setReg x (s.regs x + s.regs y)).setReg 15 0).advance 2, .ok (.Continue false))
      else
        some (((s.setReg x ((s.regs x + s.regs y) % 256)).setReg 15 1).advance 2,
          .ok (.Continue false))
  | .Sub x y =>
      some ((s.setReg x ((s.regs x + 256 - s.regs y) % 256)).advance 2, .ok (.Continue false))
  | .Shr x y =>
      let s1 := s.setReg 15 (s.regs y &&& 1)
      some ((s1.setReg y (s1.regs x >>> 1)).advance 2, .ok (.Continue false))
  | .Shl x y =>
      let s1 := s.setReg 15 (s.regs y &&& 0xE0)
      some ((s1.setReg y ((s1.regs x <<< 1) % 256)).advance 2, .ok (.Continue false))
  | .Load x n => some ((s.setReg x n).advance 2, .ok (.Continue false))
  | .Add x n => some ((s.setReg x ((s.regs x + n) % 256)).advance 2, .ok (.Continue false))
  | .Call a =>
      if a = s.pc then some (s, .ok .Loop)
      else some ({ s with stack := s.pc :: s.stack, pc := a }, .ok (.Continue false))
  | .Rts =>
      match s.stack with
      | [] => some (s, .error "Return from empty stack")
      | a :: rest => some ({ s with stack := rest, pc := (a + 2) % 65536 }, .ok (.Continue false))
  | .Jump ofs =>
      let nextPc := (s.pc &&& 0xF000) ||| (ofs &&& 0x0FFF)
      if nextPc = s.pc then some (s, .ok .Loop)
      else some ({ s with pc := nextPc }, .ok (.Continue false))
  | .JumpI a =>
      let nextPc := (a + s.regs 0) % 65536
      if nextPc = s.pc then some (s, .ok .Loop)
      else some ({ s with pc := nextPc }, .ok (.Continue false))
  | .Ske x n =>
      if s.regs x = n then some (s.advance 4, .ok (.Continue false))
      else some (s.advance 2, .ok (.Continue false))
  | .Skne x n =>
      if s.regs x ≠ n then some (s.advance 4, .ok (.Continue false))
      else some (s.advance 2, .ok (.Continue false))
  | .Skre x y =>
      if s.regs x ≠ s.regs y then some (s.advance 4, .ok (.Continue false))
      else some (s.advance 2, .ok (.Continue false))
  | .Skrne x y =>
      if s.regs x ≠ s.regs y then some (s.advance 4, .ok (.Continue false))
      else some (s.advance 2, .ok (.Continue false))
  | .Stor x => (storN (x + 1) s).map (fun t => (t.advance 2, .ok (.Continue false)))
  | .Read x => (readN (x + 1) s).map (fun t => (t.advance 2, .ok (.Continue false)))
  | .Skpr x =>
      let keyidx := s.regs x
      let pressed := if keyidx < 16 then s.keys keyidx else false
      if pressed then some (s.advance 4, .ok (.Continue false))
      else some (s.advance 2, .ok (.Continue false))
  | .Skup x =>
      let keyidx := s.regs x
      let pressed := if keyidx < 16 then s.keys keyidx else false
      if !pressed then some (s.advance 4, .ok (.Continue false))
      else some (s.advance 2, .ok (.Continue false))
  | .Keyd x =>
      match (List.range 16).find? (fun k => s.keys k) with
      | some k => some ((s.setReg x k).advance 2, .ok (.Continue false))
      | none => some (s, .ok (.Continue false))
  | .LoadS _ => some (s.advance 2, .ok (.Continue false))
  | .Moved x => some ((s.setReg x s.delay).advance 2, .ok (.Continue false))
  | .LoadD x => some (({ s with delay := s.regs x }).advance 2, .ok (.Continue false))
  | .AddI x => some ((s.setRegI ((s.regI + s.regs x) % 65536)).advance 2, .ok (.Continue false))
  | .LoadI a => some ((s.setRegI a).advance 2, .ok (.Continue false))
  | .Draw x y n =>
      if s.regI + n ≤ 4096 then
        some ((drawRows s.memory x s.regI (s.regs y) n (s.setReg 15 0)).advance 2,
          .ok (.Continue true))
      else none
  | .Clr => some (({ s with display := fun _ _ => false }).advance 2, .ok (.Continue false))
  | .Ldspr x =>
      if s.regs x > 15 then some (s, .error ("LDSPR for " ++ toString (s.regs x) ++ " > 15"))
      else some ((s.setRegI (s.regs x * 5)).advance 2, .ok (.Continue false))
  | .Bcd x =>
      if s.regI + 2 < 4096 then
        some ((((s.setMem s.regI (s.regs x / 100)).setMem (s.regI + 1)
          (s.regs x % 100 / 10)).setMem (s.regI + 2) (s.regs x % 10)).advance 2,
          .ok (.Continue false))
      else none
  | .Rand x n =>
      if n = 0 then none
      else some ((s.setReg x (rnd % n)).advance 2, .ok (.Continue false))
  | .Sys a => if a = 0 then some (s, .ok .End) else some (s, .error "SYS")

/-- Top-level `Chip8::step`: return early when paused; apply the delay tick; fetch the
big-endian word at `pc` (panicking — `none` — when `pc + 1 ≥ 4096`); surface
decode failures as `Except.error`; otherwise dispatch via `exec`. -/
def step (now rnd : Nat) (s : Chip8) : Option (Chip8 × Except String StepResult) :=
  if s.paused then some (s, .ok (.Continue false))
  else if (tickUpd now s).pc + 1 < 4096 then
    match decode (fetchWord (tickUpd now s)) with
    | .error e => some (tickUpd now s, .error e)
    | .ok i => exec rnd i (tickUpd now s)
  else none

section ProjectionLemmas

variable (s : Chip8)

@[simp] theorem Chip8.setReg_regs (j v k : Nat) :
    (s.setReg j v).regs k = if k = j then v else s.regs k := rfl

@[simp] theorem Chip8.setReg_pc (j v : Nat) : (s.setReg j v).pc = s.pc := rfl

@[simp] theorem Chip8.setReg_stack (j v : Nat) : (s.setReg j v).stack = s.stack := rfl

@[simp] theorem Chip8.setReg_memory (j v : Nat) : (s.setReg j v).memory = s.memory := rfl

@[simp] theorem Chip8.setReg_regI (j v : Nat) : (s.setReg j v).regI = s.regI := rfl

@[simp] theorem Chip8.setReg_delay (j v : Nat) : (s.setReg j v).delay = s.delay := rfl

@[simp] theorem Chip8.setReg_tick (j v : Nat) : (s.setReg j v).tick = s.tick := rfl

@[simp] theorem Chip8.setReg_keys (j v : Nat) : (s.setReg j v).keys = s.keys := rfl

@[simp] theorem Chip8.setReg_display (j v : Nat) : (s.setReg j v).display = s.display := rfl

@[simp] theorem Chip8.setReg_paused (j v : Nat) : (s.setReg j v).paused = s.paused := rfl

@[simp] theorem Chip8.setMem_memory (a v k : Nat) :
    (s.setMem a v).memory k = if k = a then v else s.memory k := rfl

@[simp] theorem Chip8.setMem_regs (a v : Nat) : (s.setMem a v).regs = s.regs := rfl

@[simp] theorem Chip8.setMem_pc (a v : Nat) : (s.setMem a v).pc = s.pc := rfl

@[simp] theorem Chip8.setMem_stack (a v : Nat) : (s.setMem a v).stack = s.stack := rfl

@[simp] theorem Chip8.setMem_regI (a v : Nat) : (s.setMem a v).regI = s.regI := rfl

@[simp] theorem Chip8.setMem_delay (a v : Nat) : (s.setMem a v).delay = s.delay := rfl

@[simp] theorem Chip8.setMem_tick (a v : Nat) : (s.setMem a v).tick = s.tick := rfl

@[simp] theorem Chip8.setMem_keys (a v : Nat) : (s.setMem a v).keys = s.keys := rfl

@[simp] theorem Chip8.setMem_display (a v : Nat) : (s.setMem a v).display = s.display := rfl

@[simp] theorem Chip8.setMem_paused (a v : Nat) : (s.setMem a v).paused = s.paused := rfl

@[simp] theorem Chip8.setRegI_regI (v : Nat) : (s.setRegI v).regI = v := rfl

@[simp] theorem Chip8.setRegI_regs (v : Nat) : (s.setRegI v).regs = s.regs := rfl

@[simp] theorem Chip8.setRegI_pc (v : Nat) : (s.setRegI v).pc = s.pc := rfl

@[simp] theorem Chip8.setRegI_stack (v : Nat) : (s.setRegI v).stack = s.stack := rfl

@[simp] theorem Chip8.setRegI_memory (v : Nat) : (s.setRegI v).memory = s.memory := rfl

@[simp] theorem Chip8.setRegI_delay (v : Nat) : (s.setRegI v).delay = s.delay := rfl

@[simp] theorem Chip8.setRegI_tick (v : Nat) : (s.setRegI v).tick = s.tick := rfl

@[simp] theorem Chip8.setRegI_keys (v : Nat) : (s.setRegI v).keys = s.keys := rfl

@[simp] theorem Chip8.setRegI_display (v : Nat) : (s.setRegI v).display = s.display := rfl

@[simp] theorem Chip8.setRegI_paused (v : Nat) : (s.setRegI v).paused = s.paused := rfl

@[simp] theorem Chip8.setPix_display (r c : Nat) (v : Bool) (p q : Nat) :
    (s.setPix r c v).display p q = if p = r ∧ q = c then v else s.display p q := rfl

@[simp] theorem Chip8.setPix_regs (r c : Nat) (v : Bool) : (s.setPix r c v).regs = s.regs := rfl

@[simp] theorem Chip8.setPix_pc (r c : Nat) (v : Bool) : (s.setPix r c v).pc = s.pc := rfl

@[simp] theorem Chip8.setPix_stack (r c : Nat) (v : Bool) : (s.setPix r c v).stack = s.stack := rfl

@[simp] theorem Chip8.setPix_memory (r c : Nat) (v : Bool) :
    (s.setPix r c v).memory = s.memory := rfl

@[simp] theorem Chip8.setPix_regI (r c : Nat) (v : Bool) : (s.setPix r c v).regI = s.regI := rfl

@[simp] theorem Chip8.setPix_delay (r c : Nat) (v : Bool) : (s.setPix r c v).delay = s.delay := rfl

@[simp] theorem Chip8.setPix_tick (r c : Nat) (v : Bool) : (s.setPix r c v).tick = s.tick := rfl

@[simp] theorem Chip8.setPix_keys (r c : Nat) (v : Bool) : (s.setPix r c v).keys = s.keys := rfl

@[simp] theorem Chip8.setPix_paused (r c : Nat) (v : Bool) :
    (s.setPix r c v).paused = s.paused := rfl

@[simp] theorem Chip8.advance_pc (k : Nat) : (s.advance k).pc = (s.pc + k) % 65536 := rfl

@[simp] theorem Chip8.advance_regs (k : Nat) : (s.advance k).regs = s.regs := rfl

@[simp] theorem Chip8.advance_stack (k : Nat) : (s.advance k).stack = s.stack := rfl

@[simp] theorem Chip8.advance_memory (k : Nat) : (s.advance k).memory = s.memory := rfl

@[simp] theorem Chip8.advance_regI (k : Nat) : (s.advance k).regI = s.regI := rfl

@[simp] theorem Chip8.advance_delay (k : Nat) : (s.advance k).delay = s.delay := rfl

@[simp] theorem Chip8.advance_tick (k : Nat) : (s.advance k).tick = s.tick := rfl

@[simp] theorem Chip8.advance_keys (k : Nat) : (s.advance k).keys = s.keys := rfl

@[simp] theorem Chip8.advance_display (k : Nat) : (s.advance k).display = s.display := rfl

@[simp] theorem Chip8.advance_paused (k : Nat) : (s.advance k).paused = s.paused := rfl

@[simp] theorem tickUpd_pc (now : Nat) : (tickUpd now s).pc = s.pc := by
  unfold tickUpd; split <;> rfl

@[simp] theorem tickUpd_regs (now : Nat) : (tickUpd now s).regs = s.regs := by
  unfold tickUpd; split <;> rfl

@[simp] theorem tickUpd_stack (now : Nat) : (tickUpd now s).stack = s.stack := by
  unfold tickUpd; split <;> rfl

@[simp] theorem tickUpd_memory (now : Nat) : (tickUpd now s).memory = s.memory := by
  unfold tickUpd; split <;> rfl

@[simp] theorem tickUpd_regI (now : Nat) : (tickUpd now s).regI = s.regI := by
  unfold tickUpd; split <;> rfl

@[simp] theorem tickUpd_keys (now : Nat) : (tickUpd now s).keys = s.keys := by
  unfold tickUpd; split <;> rfl

@[simp] theorem tickUpd_display (now : Nat) : (tickUpd now s).display = s.display := by
  unfold tickUpd; split <;> rfl

@[simp] theorem tickUpd_paused (now : Nat) : (tickUpd now s).paused = s.paused := by
  unfold tickUpd; split <;> rfl

@[simp] theorem fetchWord_tickUpd (now : Nat) : fetchWord (tickUpd now s) = fetchWord s := by
  simp [fetchWord]

end ProjectionLemmas

/-- Reduction of `step` to `exec` once the pause check passes, the fetch is
in bounds and the word decodes. -/
theorem step_eq_exec (now rnd : Nat) (s : Chip8) (i : Instruction)
    (hp : s.paused = false) (hpc : s.pc + 1 < 4096)
    (hdec : decode (fetchWord s) = .ok i) :
    step now rnd s = exec rnd i (tickUpd now s) := by
  unfold step
  rw [hp]
  simp only [Bool.false_eq_true, if_false, tickUpd_pc, fetchWord_tickUpd, hdec, if_pos hpc]

theorem addModInj {m c a b : Nat} (ha : a < m) (hb : b < m)
    (h : (c + a) % m = (c + b) % m) : a = b := by
  have h2 : a % m = b % m := Nat.ModEq.add_left_cancel' c h
  rwa [Nat.mod_eq_of_lt ha, Nat.mod_eq_of_lt hb] at h2

theorem drawBit_regs (b : Bool) (r c : Nat) (s : Chip8) (j : Nat) (hj : j ≠ 15) :
    (drawBit b r c s).regs j = s.regs j := by
  unfold drawBit
  dsimp only
  split <;> simp [hj]

theorem drawBit_pc (b : Bool) (r c : Nat) (s : Chip8) : (drawBit b r c s).pc = s.pc := by
  unfold drawBit; dsimp only; split <;> rfl

theorem drawBit_delay (b : Bool) (r c : Nat) (s : Chip8) : (drawBit b r c s).delay = s.delay := by
  unfold drawBit; dsimp only; split <;> rfl

theorem drawBit_tick (b : Bool) (r c : Nat) (s : Chip8) : (drawBit b r c s).tick = s.tick := by
  unfold drawBit; dsimp only; split <;> rfl

theorem drawBit_display_other (b : Bool) (r c : Nat) (s : Chip8) (p q : Nat)
    (h : p ≠ r % 32 ∨ q ≠ c % 64) :
    (drawBit b r c s).display p q = s.display p q := by
  unfold drawBit
  have hne : ¬(p = r % 32 ∧ q = c % 64) := by tauto
  dsimp only
  split <;> simp [hne]

theorem drawBit_display_hit (b : Bool) (r c : Nat) (s : Chip8) :
    (drawBit b r c s).display (r % 32) (c % 64) =
      xor (s.display (r % 32) (c % 64)) b := by
  unfold drawBit
  dsimp only
  split <;> simp

theorem drawBit_flag (b : Bool) (r c : Nat) (s : Chip8) :
    (drawBit b r c s).regs 15 =
      if s.display (r % 32) (c % 64) && b then 1 else s.regs 15 := by
  unfold drawBit
  dsimp only
  by_cases h : (s.display (r % 32) (c % 64) && b) = true <;> simp [h]


theorem drawBits_regs (byte row col0 : Nat) (k : Nat) (s : Chip8) (j : Nat) (hj : j ≠ 15) :
    (drawBits byte row col0 k s).regs j = s.regs j := by
  induction k with
  | zero => rfl
  | succ k ih => rw [drawBits, drawBit_regs _ _ _ _ _ hj, ih]

theorem drawBits_pc (byte row col0 : Nat) (k : Nat) (s : Chip8) :
    (drawBits byte row col0 k s).pc = s.pc := by
  induction k with
  | zero => rfl
  | succ k ih => rw [drawBits, drawBit_pc, ih]

theorem drawBits_delay (byte row col0 : Nat) (k : Nat) (s : Chip8) :
    (drawBits byte row col0 k s).delay = s.delay := by
  induction k with
  | zero => rfl
  | succ k ih => rw [drawBits, drawBit_delay, ih]

theorem drawBits_tick (byte row col0 : Nat) (k : Nat) (s : Chip8) :
    (drawBits byte row col0 k s).tick = s.tick := by
  induction k with
  | zero => rfl
  | succ k ih => rw [drawBits, drawBit_tick, ih]

theorem drawBits_display_row (byte row col0 : Nat) (k : Nat) (s : Chip8) (p q : Nat)
    (h : p ≠ row % 32) :
    (drawBits byte row col0 k s).display p q = s.display p q := by
  induction k with
  | zero => rfl
  | succ k ih => rw [drawBits, drawBit_display_other _ _ _ _ _ _ (Or.inl h), ih]

theorem drawBits_display_col (byte row col0 : Nat) (k : Nat) (s : Chip8) (p q : Nat)
    (h : ∀ b < k, q ≠ (col0 + b) % 64) :
    (drawBits byte row col0 k s).display p q = s.display p q := by
  induction k with
  | zero => rfl
  | succ k ih =>
      rw [drawBits, drawBit_display_other _ _ _ _ _ _ (Or.inr (h k (Nat.lt_succ_self k)))]
      exact ih (fun b hb => h b (Nat.lt_succ_of_lt hb))

theorem drawBits_display_hit (byte row col0 : Nat) (k : Nat) (s : Chip8) (b : Nat)
    (hb : b < k) (hk : k ≤ 64) :
    (drawBits byte row col0 k s).display (row % 32) ((col0 + b) % 64) =
      xor (s.display (row % 32) ((col0 + b) % 64)) (byte.testBit (7 - b)) := by
  induction k with
  | zero => omega
  | succ k ih =>
      rw [drawBits]
      rcases Nat.lt_succ_iff_lt_or_eq.mp hb with hlt | rfl
      · rw [drawBit_display_other]
        · exact ih hlt (Nat.le_of_succ_le hk)
        · refine Or.inr (fun hcol => ?_)
          have : b = k := addModInj (by omega) (by omega) hcol
          omega
      · rw [drawBit_display_hit, drawBits_display_col]
        intro b' hb' hcol
        have : b = b' := addModInj (by omega) (by omega) hcol
        omega

theorem drawBits_flag (byte row col0 : Nat) (k : Nat) (s : Chip8) (hk : k ≤ 64) :
    (drawBits byte row col0 k s).regs 15 =
      if (List.range k).any
          (fun b => s.display (row % 32) ((col0 + b) % 64) && byte.testBit (7 - b)) then 1
        else s.regs 15 := by
  induction k with
  | zero => simp [drawBits]
  | succ k ih =>
      rw [drawBits, drawBit_flag, drawBits_display_col _ _ _ _ _ _ _
        (fun b hb hcol => by have : k = b := addModInj (by omega) (by omega) hcol; omega),
        ih (Nat.le_of_succ_le hk), List.range_succ, List.any_append]
      simp only [List.any_cons, List.any_nil, Bool.or_false]
      by_cases h1 : ((List.range k).any
          (fun b => s.display (row % 32) ((col0 + b) % 64) && byte.testBit (7 - b))) = true
      · by_cases h2 : (s.display (row % 32) ((col0 + k) % 64) && byte.testBit (7 - k)) = true <;>
          simp [h1, h2]
      · by_cases h2 : (s.display (row % 32) ((col0 + k) % 64) && byte.testBit (7 - k)) = true <;>
          simp [h1, h2]


theorem drawRows_regs (mem : Nat → Nat) (x i row0 : Nat) (n : Nat) (s : Chip8)
    (j : Nat) (hj : j ≠ 15) :
    (drawRows mem x i row0 n s).regs j = s.regs j := by
  induction n with
  | zero => rfl
  | succ n ih => rw [drawRows, drawBits_regs _ _ _ _ _ _ hj, ih]

theorem drawRows_pc (mem : Nat → Nat) (x i row0 : Nat) (n : Nat) (s : Chip8) :
    (drawRows mem x i row0 n s).pc = s.pc := by
  induction n with
  | zero => rfl
  | succ n ih => rw [drawRows, drawBits_pc, ih]

theorem drawRows_delay (mem : Nat → Nat) (x i row0 : Nat) (n : Nat) (s : Chip8) :
    (drawRows mem x i row0 n s).delay = s.delay := by
  induction n with
  | zero => rfl
  | succ n ih => rw [drawRows, drawBits_delay, ih]

theorem drawRows_tick (mem : Nat → Nat) (x i row0 : Nat) (n : Nat) (s : Chip8) :
    (drawRows mem x i row0 n s).tick = s.tick := by
  induction n with
  | zero => rfl
  | succ n ih => rw [drawRows, drawBits_tick, ih]

theorem drawRows_display_row (mem : Nat → Nat) (x i row0 : Nat) (n : Nat) (s : Chip8)
    (p q : Nat) (h : ∀ r < n, p ≠ (row0 + r) % 32) :
    (drawRows mem x i row0 n s).display p q = s.display p q := by
  induction n with
  | zero => rfl
  | succ n ih =>
      rw [drawRows, drawBits_display_row _ _ _ _ _ _ _ (h n (Nat.lt_succ_self n))]
      exact ih (fun r hr => h r (Nat.lt_succ_of_lt hr))

theorem drawRows_display_hit (mem : Nat → Nat) (x i row0 : Nat) (n : Nat) (s : Chip8)
    (hx : x ≠ 15) (r b : Nat) (hr : r < n) (hn : n ≤ 32) (hb : b < 8) :
    (drawRows mem x i row0 n s).display ((row0 + r) % 32) ((s.regs x + b) % 64) =
      xor (s.display ((row0 + r) % 32) ((s.regs x + b) % 64))
        ((mem (i + r)).testBit (7 - b)) := by
  induction n with
  | zero => omega
  | succ n ih =>
      rw [drawRows, drawRows_regs _ _ _ _ _ _ _ hx]
      rcases Nat.lt_succ_iff_lt_or_eq.mp hr with hlt | rfl
      · rw [drawBits_display_row]
        · exact ih hlt (Nat.le_of_succ_le hn)
        · intro hrow
          have : r = n := addModInj (by omega) (by omega) hrow
          omega
      · rw [drawBits_display_hit _ _ _ _ _ _ hb (by omega), drawRows_display_row]
        intro r' hr' hrow
        have : r = r' := addModInj (by omega) (by omega) hrow
        omega

theorem flagIfComb {a b : Bool} {v : Nat} :
    (if b then 1 else if a then 1 else v) = if a || b then 1 else v := by
  cases a <;> cases b <;> simp

theorem drawRows_flag (mem : Nat → Nat) (x i row0 : Nat) (n : Nat) (s : Chip8)
    (hx : x ≠ 15) (hn : n ≤ 32) :
    (drawRows mem x i row0 n s).regs 15 =
      if (List.range n).any (fun r => (List.range 8).any
          (fun b => s.display ((row0 + r) % 32) ((s.regs x + b) % 64) &&
            (mem (i + r)).testBit (7 - b))) then 1
        else s.regs 15 := by
  induction n with
  | zero => simp [drawRows]
  | succ n ih =>
      rw [drawRows, drawRows_regs _ _ _ _ _ _ _ hx, drawBits_flag _ _ _ _ _ (by omega)]
      have hrowpres : ∀ q : Nat,
          (drawRows mem x i row0 n s).display ((row0 + n) % 32) q =
            s.display ((row0 + n) % 32) q := by
        intro q
        refine drawRows_display_row _ _ _ _ _ _ _ _ (fun r hr hrow => ?_)
        have : n = r := addModInj (by omega) (by omega) hrow
        omega
      simp only [hrowpres]
      rw [ih (Nat.le_of_succ_le hn),
        show List.range (n + 1) = List.range n ++ [n] from List.range_succ n, List.any_append]
      simp only [List.any_cons, List.any_nil, Bool.or_false]
      exact flagIfComb

theorem storN_delay_tick (k : Nat) (s t : Chip8) (h : storN k s = some t) :
    t.delay = s.delay ∧ t.tick = s.tick := by
  induction k generalizing t with
  | zero => cases h; exact ⟨rfl, rfl⟩
  | succ k ih =>
      rw [storN] at h
      cases hs : storN k s with
      | none => rw [hs] at h; cases h
      | some u =>
          rw [hs, Option.some_bind] at h
          split at h
          · cases h
            exact ih u hs
          · cases h

theorem readN_delay_tick (k : Nat) (s t : Chip8) (h : readN k s = some t) :
    t.delay = s.delay ∧ t.tick = s.tick := by
  induction k generalizing t with
  | zero => cases h; exact ⟨rfl, rfl⟩
  | succ k ih =>
      rw [readN] at h
      cases hs : readN k s with
      | none => rw [hs] at h; cases h
      | some u =>
          rw [hs, Option.some_bind] at h
          split at h
          · cases h
            exact ih u hs
          · cases h

theorem storN_total (k : Nat) (s : Chip8) (h : s.regI + k ≤ 4096) :
    ∃ t, storN k s = some t ∧ t.regI = s.regI + k := by
  induction k with
  | zero => exact ⟨s, rfl, rfl⟩
  | succ k ih =>
      obtain ⟨u, hu, hreg⟩ := ih (by omega)
      refine ⟨(u.setMem u.regI (u.regs k)).setRegI ((u.regI + 1) % 65536), ?_, ?_⟩
      · rw [storN, hu, Option.some_bind, if_pos (by omega)]
      · simp only [Chip8.setRegI_regI]
        rw [Nat.mod_eq_of_lt (by omega)]
        omega

theorem readN_total (k : Nat) (s : Chip8) (h : s.regI + k ≤ 4096) :
    ∃ t, readN k s = some t ∧ t.regI = s.regI + k := by
  induction k with
  | zero => exact ⟨s, rfl, rfl⟩
  | succ k ih =>
      obtain ⟨u, hu, hreg⟩ := ih (by omega)
      refine ⟨(u.setReg k (u.memory u.regI)).setRegI ((u.regI + 1) % 65536), ?_, ?_⟩
      · rw [readN, hu, Option.some_bind, if_pos (by omega)]
      · simp only [Chip8.setRegI_regI]
        rw [Nat.mod_eq_of_lt (by omega)]
        omega

/-- Whether the word currently under the program counter decodes to `LoadD`
(the only instruction that writes the delay counter). -/
def isLoadDAt (s : Chip8) : Bool :=
  match decode (fetchWord s) with
  | .ok (.LoadD _) => true
  | _ => false

theorem exec_delay_tick (rnd : Nat) (i : Instruction) (s : Chip8)
    (p : Chip8 × Except String StepResult) (hnl : ∀ x, i ≠ .LoadD x)
    (h : exec rnd i s = some p) : p.1.delay = s.delay ∧ p.1.tick = s.tick := by
  cases i <;> simp only [exec] at h
  case Move x y => cases h; exact ⟨rfl, rfl⟩
  case Or x y => cases h; exact ⟨rfl, rfl⟩
  case And x y => cases h; exact ⟨rfl, rfl⟩
  case Xor x y => cases h; exact ⟨rfl, rfl⟩
  case Addr x y => split at h <;> (cases h; exact ⟨rfl, rfl⟩)
  case Sub x y => cases h; exact ⟨rfl, rfl⟩
  case Shr x y => cases h; exact ⟨rfl, rfl⟩
  case Shl x y => cases h; exact ⟨rfl, rfl⟩
  case Load x n => cases h; exact ⟨rfl, rfl⟩
  case Add x n => cases h; exact ⟨rfl, rfl⟩
  case Call a => split at h <;> (cases h; exact ⟨rfl, rfl⟩)
  case Rts => split at h <;> (cases h; exact ⟨rfl, rfl⟩)
  case Jump a => split at h <;> (cases h; exact ⟨rfl, rfl⟩)
  case JumpI a => split at h <;> (cases h; exact ⟨rfl, rfl⟩)
  case Ske x n => split at h <;> (cases h; exact ⟨rfl, rfl⟩)
  case Skne x n => split at h <;> (cases h; exact ⟨rfl, rfl⟩)
  case Skre x y => split at h <;> (cases h; exact ⟨rfl, rfl⟩)
  case Skrne x y => split at h <;> (cases h; exact ⟨rfl, rfl⟩)
  case Stor x =>
      cases hs : storN (x + 1) s with
      | none => rw [hs] at h; cases h
      | some u =>
          rw [hs, Option.map_some'] at h
          cases h
          exact storN_delay_tick (x + 1) s u hs
  case Read x =>
      cases hs : readN (x + 1) s with
      | none => rw [hs] at h; cases h
      | some u =>
          rw [hs, Option.map_some'] at h
          cases h
          exact readN_delay_tick (x + 1) s u hs
  case Skpr x =>
      split at h <;> try split at h
      all_goals (cases h; exact ⟨rfl, rfl⟩)
  case Skup x =>
      split at h <;> try split at h
      all_goals (cases h; exact ⟨rfl, rfl⟩)
  case Keyd x => split at h <;> (cases h; exact ⟨rfl, rfl⟩)
  case LoadS x => cases h; exact ⟨rfl, rfl⟩
  case Moved x => cases h; exact ⟨rfl, rfl⟩
  case LoadD x => exact absurd rfl (hnl x)
  case AddI x => cases h; exact ⟨rfl, rfl⟩
  case LoadI a => cases h; exact ⟨rfl, rfl⟩
  case Draw x y n =>
      split at h
      · cases h
        refine ⟨?_, ?_⟩
        · show (drawRows _ _ _ _ _ _).delay = s.delay
          rw [drawRows_delay]
          rfl
        · show (drawRows _ _ _ _ _ _).tick = s.tick
          rw [drawRows_tick]
          rfl
      · cases h
  case Clr => cases h; exact ⟨rfl, rfl⟩
  case Ldspr x => split at h <;> (cases h; exact ⟨rfl, rfl⟩)
  case Bcd x =>
      split at h
      · cases h; exact ⟨rfl, rfl⟩
      · cases h
  case Rand x n =>
      split at h
      · cases h
      · cases h; exact ⟨rfl, rfl⟩
  case Sys a => split at h <;> (cases h; exact ⟨rfl, rfl⟩)

theorem tickUpd_cases (now : Nat) (s : Chip8) :
    ((tickUpd now s).delay = s.delay ∧ (tickUpd now s).tick = s.tick) ∨
      (s.tick + 16 < now ∧ (tickUpd now s).delay = s.delay - 1 ∧
        (tickUpd now s).tick = now) := by
  unfold tickUpd
  split
  · right
    refine ⟨by assumption, ?_, ?_⟩ <;> rfl
  · left
    exact ⟨rfl, rfl⟩

theorem step_delay_cases (now rnd : Nat) (s : Chip8)
    (p : Chip8 × Except String StepResult)
    (hnl : isLoadDAt s = false) (h : step now rnd s = some p) :
    (p.1.delay = s.delay ∧ p.1.tick = s.tick) ∨
      (s.tick + 16 < now ∧ p.1.delay = s.delay - 1 ∧ p.1.tick = now) := by
  unfold step at h
  split at h
  · cases h; exact Or.inl ⟨rfl, rfl⟩
  · split at h
    · revert h
      cases hdec : decode (fetchWord (tickUpd now s)) with
      | error e =>
          intro h
          cases h
          simpa using tickUpd_cases now s
      | ok i =>
          intro h
          have hni : ∀ x, i ≠ .LoadD x := by
            intro x hx
            subst hx
            rw [fetchWord_tickUpd] at hdec
            simp [isLoadDAt, hdec] at hnl
          obtain ⟨h1, h2⟩ := exec_delay_tick rnd i (tickUpd now s) p hni h
          rcases tickUpd_cases now s with ⟨a1, a2⟩ | ⟨a0, a1, a2⟩
          · exact Or.inl ⟨h1.trans a1, h2.trans a2⟩
          · exact Or.inr ⟨a0, h1.trans a1, h2.trans a2⟩
    · cases h

/-- Iterated `step` at a list of wall-clock times (random oracle fixed at 0,
which no delay behaviour depends on); `none` once any step panics. -/
def runSeq : List Nat → Chip8 → Option Chip8
  | [], s => some s
  | u :: us, s => (step u 0 s).bind fun p => runSeq us p.1

/-- The run executes no `LoadD` instruction (the only delay-writing one). -/
def noLoadDRun : List Nat → Chip8 → Bool
  | [], _ => true
  | u :: us, s =>
      !(isLoadDAt s) &&
        (match step u 0 s with
          | none => true
          | some p => noLoadDRun us p.1)

theorem runSeq_delay_window (us : List Nat) (base d0 t0 : Nat) (v t : Chip8)
    (hw : ∀ u ∈ us, base ≤ u ∧ u ≤ base + 16)
    (hrun : noLoadDRun us v = true)
    (h : runSeq us v = some t)
    (hinv : (v.delay = d0 ∧ v.tick = t0) ∨
      (base ≤ v.tick ∧ d0 - 1 ≤ v.delay ∧ v.delay ≤ d0)) :
    (t.delay = d0 ∧ t.tick = t0) ∨
      (base ≤ t.tick ∧ d0 - 1 ≤ t.delay ∧ t.delay ≤ d0) := by
  induction us generalizing v with
  | nil => cases h; exact hinv
  | cons u us ih =>
      rw [runSeq] at h
      cases hs : step u 0 v with
      | none => rw [hs] at h; cases h
      | some p =>
          rw [hs, Option.some_bind] at h
          rw [noLoadDRun, hs] at hrun
          simp only [Bool.and_eq_true, Bool.not_eq_true'] at hrun
          obtain ⟨hnl, hrun'⟩ := hrun
          obtain ⟨hu1, hu2⟩ := hw u (List.mem_cons_self u us)
          have hcases := step_delay_cases u 0 v p hnl hs
          refine ih p.1 (fun w hw' => hw w (List.mem_cons_of_mem u hw')) hrun' h ?_
          rcases hinv with ⟨e1, e2⟩ | ⟨b1, b2, b3⟩ <;>
            rcases hcases with ⟨c1, c2⟩ | ⟨c0, c1, c2⟩
          · exact Or.inl ⟨c1.trans e1, c2.trans e2⟩
          · right
            omega
          · right
            omega
          · right
            omega
  

/-- Sufficient in-bounds conditions under which dispatching instruction `i`
cannot panic: Draw must read inside memory, Bcd/Stor/Read must write inside
memory, and the Rand range must be non-empty.  No other instruction indexes
out of bounds. -/
def safeInstr (s : Chip8) (i : Instruction) : Bool :=
  match i with
  | .Draw _ _ n => decide (s.regI + n ≤ 4096)
  | .Bcd _ => decide (s.regI + 2 < 4096)
  | .Stor x => decide (s.regI + (x + 1) ≤ 4096)
  | .Read x => decide (s.regI + (x + 1) ≤ 4096)
  | .Rand _ n => decide (n ≠ 0)
  | _ => true

/-- The fetched word either fails to decode or decodes to an instruction
whose memory accesses are in bounds. -/
def safeState (s : Chip8) : Bool :=
  match decode (fetchWord s) with
  | .ok i => safeInstr s i
  | .error _ => true

theorem safeInstr_tickUpd (now : Nat) (s : Chip8) (i : Instruction) :
    safeInstr (tickUpd now s) i = safeInstr s i := by
  cases i <;> simp [safeInstr]

theorem exec_total (rnd : Nat) (i : Instruction) (s : Chip8)
    (hs : safeInstr s i = true) : (exec rnd i s).isSome = true := by
  cases i <;> simp only [exec, safeInstr, decide_eq_true_eq] at hs ⊢
  case Move x y => rfl
  case Or x y => rfl
  case And x y => rfl
  case Xor x y => rfl
  case Addr x y => split <;> rfl
  case Sub x y => rfl
  case Shr x y => rfl
  case Shl x y => rfl
  case Load x n => rfl
  case Add x n => rfl
  case Call a => split <;> rfl
  case Rts => cases hst : s.stack <;> rfl
  case Jump a => split <;> rfl
  case JumpI a => split <;> rfl
  case Ske x n => split <;> rfl
  case Skne x n => split <;> rfl
  case Skre x y => split <;> rfl
  case Skrne x y => split <;> rfl
  case Stor x =>
      obtain ⟨u, hu, _⟩ := storN_total (x + 1) s hs
      rw [hu]
      rfl
  case Read x =>
      obtain ⟨u, hu, _⟩ := readN_total (x + 1) s hs
      rw [hu]
      rfl
  case Skpr x => split <;> split <;> rfl
  case Skup x => split <;> split <;> rfl
  case Keyd x => cases hk : (List.range 16).find? (fun k => s.keys k) <;> rfl
  case LoadS x => rfl
  case Moved x => rfl
  case LoadD x => rfl
  case AddI x => rfl
  case LoadI a => rfl
  case Draw x y n =>
      rw [if_pos hs]
      rfl
  case Clr => rfl
  case Ldspr x => split <;> rfl
  case Bcd x =>
      rw [if_pos hs]
      rfl
  case Rand x n =>
      rw [if_neg hs]
      rfl
  case Sys a => split <;> rfl

/-- A convenient all-zero, unpaused machine state for concrete instances. -/
def zeroState : Chip8 where
  stack := []
  pc := 0x200
  regs := fun _ => 0
  regI := 0
  delay := 0
  tick := 0
  memory := fun _ => 0
  keys := fun _ => false
  display := fun _ _ => false
  paused := false

/-- C1: the spec claims `encode (decode w) = w` whenever decoding succeeds.
The code violates this: the word 0x8120 decodes to `Move 1 2`, but
re-encoding yields 0x8100 — the encoder computes `0x00F0 & r2` without
shifting the second register index left by 4 (the `Draw` arm shifts its `y`
operand, so the intent is clear), zeroing the y nibble of every two-register
opcode. -/
theorem c1_roundtrip_fails_at_0x8120 :
    decode 0x8120 = .ok (.Move 1 2) ∧ encode (.Move 1 2) = 0x8100 ∧
      (0x8100 : Nat) ≠ 0x8120 :=
  ⟨rfl, rfl, by decide⟩

/-- C3: executing `Jump`, `JumpI` or `Call` whose computed target equals the
current program counter yields `StepResult.Loop` and leaves the program
counter, call stack and registers unchanged (`Call` does not push); with a
different target, `Call` pushes the current program counter and jumps. -/
theorem c3_selfloop_jump_call (now rnd : Nat) (s : Chip8)
    (hp : s.paused = false) (hpc : s.pc + 1 < 4096) :
    (∀ ofs, decode (fetchWord s) = .ok (.Jump ofs) →
      ((s.pc &&& 0xF000) ||| (ofs &&& 0x0FFF)) = s.pc →
      ∀ p, step now rnd s = some p →
        p.2 = .ok .Loop ∧ p.1.pc = s.pc ∧ p.1.stack = s.stack ∧ p.1.regs = s.regs) ∧
    (∀ a, decode (fetchWord s) = .ok (.JumpI a) →
      (a + s.regs 0) % 65536 = s.pc →
      ∀ p, step now rnd s = some p →
        p.2 = .ok .Loop ∧ p.1.pc = s.pc ∧ p.1.stack = s.stack ∧ p.1.regs = s.regs) ∧
    (∀ a, decode (fetchWord s) = .ok (.Call a) → a = s.pc →
      ∀ p, step now rnd s = some p →
        p.2 = .ok .Loop ∧ p.1.pc = s.pc ∧ p.1.stack = s.stack ∧ p.1.regs = s.regs) ∧
    (∀ a, decode (fetchWord s) = .ok (.Call a) → a ≠ s.pc →
      ∀ p, step now rnd s = some p →
        p.2 = .ok (.Continue false) ∧ p.1.pc = a ∧ p.1.stack = s.pc :: s.stack ∧
          p.1.regs = s.regs) := by
  refine ⟨?_, ?_, ?_, ?_⟩
  · intro ofs hdec hloop p hstep
    rw [step_eq_exec now rnd s _ hp hpc hdec] at hstep
    simp only [exec, tickUpd_pc, tickUpd_stack, tickUpd_regs] at hstep
    rw [if_pos hloop] at hstep
    cases hstep
    exact ⟨rfl, tickUpd_pc s now, tickUpd_stack s now, tickUpd_regs s now⟩
  · intro a hdec hloop p hstep
    rw [step_eq_exec now rnd s _ hp hpc hdec] at hstep
    simp only [exec, tickUpd_pc, tickUpd_regs] at hstep
    rw [if_pos hloop] at hstep
    cases hstep
    exact ⟨rfl, tickUpd_pc s now, tickUpd_stack s now, tickUpd_regs s now⟩
  · intro a hdec hloop p hstep
    rw [step_eq_exec now rnd s _ hp hpc hdec] at hstep
    simp only [exec, tickUpd_pc] at hstep
    rw [if_pos hloop] at hstep
    cases hstep
    exact ⟨rfl, tickUpd_pc s now, tickUpd_stack s now, tickUpd_regs s now⟩
  · intro a hdec hne p hstep
    rw [step_eq_exec now rnd s _ hp hpc hdec] at hstep
    simp only [exec, tickUpd_pc] at hstep
    rw [if_neg hne] at hstep
    cases hstep
    refine ⟨rfl, rfl, ?_, tickUpd_regs s now⟩
    show s.pc :: (tickUpd now s).stack = s.pc :: s.stack
    rw [tickUpd_stack]

def c3S : Chip8 := { zeroState with memory := fun a => if a = 0x200 then 0x12 else 0 }

def c3T : Chip8 := match step 0 0 c3S with | some p => p.1 | none => c3S

/-- C3 witness: the word 0x1200 at address 0x200 is `Jump 0x200`, whose
computed target equals the current program counter; the step reports the
self-loop outcome and changes nothing. -/
theorem c3_witness :
    ((c3S.pc &&& 0xF000) ||| (0x200 &&& 0x0FFF)) = c3S.pc ∧
      step 0 0 c3S = some (c3T, .ok .Loop) ∧ c3T.pc = c3S.pc ∧
      c3T.stack = c3S.stack ∧ c3T.regs = c3S.regs := by
  refine ⟨by decide, rfl, ?_⟩
  have h := (c3_selfloop_jump_call 0 0 c3S rfl (by decide)).1 0x200 rfl (by decide)
    (c3T, .ok .Loop) rfl
  exact ⟨h.2.1, h.2.2.1, h.2.2.2⟩

/-- C4: executing `Rts` with an empty call stack returns the execution error
"Return from empty stack" (not a panic, not a silent success) and leaves the
program counter, registers, stack and memory unchanged; with stack
`a :: rest` it pops and sets the program counter to `a + 2`. -/
theorem c4_rts (now rnd : Nat) (s : Chip8)
    (hp : s.paused = false) (hpc : s.pc + 1 < 4096)
    (hdec : decode (fetchWord s) = .ok .Rts) :
    (s.stack = [] → ∀ p, step now rnd s = some p →
      p.2 = .error "Return from empty stack" ∧ p.1.pc = s.pc ∧ p.1.regs = s.regs ∧
        p.1.stack = s.stack ∧ p.1.memory = s.memory) ∧
    (∀ a rest, s.stack = a :: rest → ∀ p, step now rnd s = some p →
      p.2 = .ok (.Continue false) ∧ p.1.pc = (a + 2) % 65536 ∧ p.1.stack = rest ∧
        p.1.regs = s.regs ∧ p.1.memory = s.memory) := by
  constructor
  · intro hstack p hstep
    rw [step_eq_exec now rnd s _ hp hpc hdec] at hstep
    simp only [exec, tickUpd_stack, hstack] at hstep
    cases hstep
    exact ⟨rfl, tickUpd_pc s now, tickUpd_regs s now, tickUpd_stack s now,
      tickUpd_memory s now⟩
  · intro a rest hstack p hstep
    rw [step_eq_exec now rnd s _ hp hpc hdec] at hstep
    simp only [exec, tickUpd_stack, hstack] at hstep
    cases hstep
    exact ⟨rfl, rfl, rfl, tickUpd_regs s now, tickUpd_memory s now⟩

def c4S : Chip8 :=
  { zeroState with memory := fun a => if a = 0x201 then 0xEE else 0 }

def c4T : Chip8 := match step 0 0 c4S with | some p => p.1 | none => c4S

/-- C4 witness: the word 0x00EE at address 0x200 is `Rts`; with the empty
stack the step returns the "Return from empty stack" error and leaves the
state unchanged. -/
theorem c4_witness :
    c4S.stack = [] ∧ step 0 0 c4S = some (c4T, .error "Return from empty stack") ∧
      c4T.pc = c4S.pc ∧ c4T.stack = [] ∧ c4T.memory = c4S.memory := by
  refine ⟨rfl, rfl, ?_⟩
  have h := (c4_rts 0 0 c4S rfl (by decide) rfl).1 rfl
    (c4T, .error "Return from empty stack") rfl
  exact ⟨h.2.1, h.2.2.2.1, h.2.2.2.2⟩


def c5xS : Chip8 :=
  { zeroState with
    memory := fun a => if a = 0x200 then 0x8F else if a = 0x201 then 0x04 else 0,
    regs := fun j => if j = 15 then 1 else if j = 0 then 1 else 0 }

def c5xT : Chip8 := match step 0 0 c5xS with | some p => p.1 | none => c5xS

/-- C5 counterexample: the word 0x8F04 decodes to `Addr 15 0`; with registers
15 and 0 both 1 (sum 2, no overflow) the claim requires register x = 15 to
hold the sum 2 and the flag register to be 0 — but they are the same
register, and the code's flag write runs last, leaving register 15 = 0. -/
theorem c5_counterexample :
    decode (fetchWord c5xS) = .ok (.Addr 15 0) ∧
      c5xS.regs 15 + c5xS.regs 0 = 2 ∧
      step 0 0 c5xS = some (c5xT, .ok (.Continue false)) ∧
      c5xT.regs 15 = 0 ∧ c5xT.regs 15 ≠ 2 :=
  ⟨rfl, rfl, rfl, rfl, by decide⟩

/-- C5 amended: for x ≠ 15, `Addr(x, y)` sets register x to the (wrapped)
sum, sets the flag register 15 to 1 on overflow and 0 otherwise, advances the
program counter by 2 and changes nothing else.  (When x = 15 the flag write
runs after the sum write and overwrites it, so register 15 ends as the flag,
not the sum.) -/
theorem c5_addr_amended (now rnd : Nat) (s : Chip8) (x y : Nat)
    (hp : s.paused = false) (hpc : s.pc + 1 < 4096)
    (hdec : decode (fetchWord s) = .ok (.Addr x y))
    (hx : x ≠ 15) (_hvx : s.regs x < 256) (_hvy : s.regs y < 256) :
    ∀ p, step now rnd s = some p →
      p.2 = .ok (.Continue false) ∧ p.1.pc = (s.pc + 2) % 65536 ∧
      (s.regs x + s.regs y ≤ 255 →
        p.1.regs x = s.regs x + s.regs y ∧ p.1.regs 15 = 0) ∧
      (255 < s.regs x + s.regs y →
        p.1.regs x = (s.regs x + s.regs y) % 256 ∧ p.1.regs 15 = 1) ∧
      (∀ j, j ≠ x → j ≠ 15 → p.1.regs j = s.regs j) ∧
      p.1.memory = s.memory ∧ p.1.stack = s.stack := by
  intro p hstep
  rw [step_eq_exec now rnd s _ hp hpc hdec] at hstep
  simp only [exec, tickUpd_regs] at hstep
  rcases le_or_lt (s.regs x + s.regs y) 255 with hc | hc
  · rw [if_pos hc] at hstep
    cases hstep
    exact ⟨rfl, by simp, fun _ => ⟨by simp [hx], by simp⟩,
      fun h' => absurd hc (by omega), fun j hjx hj15 => by simp [hjx, hj15],
      by simp, by simp⟩
  · rw [if_neg (by omega)] at hstep
    cases hstep
    exact ⟨rfl, by simp, fun h' => absurd hc (by omega),
      fun _ => ⟨by simp [hx], by simp⟩, fun j hjx hj15 => by simp [hjx, hj15],
      by simp, by simp⟩

def c5S : Chip8 :=
  { zeroState with
    memory := fun a => if a = 0x200 then 0x81 else if a = 0x201 then 0x24 else 0,
    regs := fun j => if j = 1 then 255 else if j = 2 then 1 else 0 }

def c5T : Chip8 := match step 0 0 c5S with | some p => p.1 | none => c5S

/-- C5 witness: the word 0x8124 is `Addr 1 2`; with register 1 = 0xFF and
register 2 = 1 the sum overflows, register 1 wraps to 0 and the flag register
is set to 1. -/
theorem c5_witness :
    decode (fetchWord c5S) = .ok (.Addr 1 2) ∧
      step 0 0 c5S = some (c5T, .ok (.Continue false)) ∧
      c5T.regs 1 = 0 ∧ c5T.regs 15 = 1 := by
  refine ⟨rfl, rfl, ?_⟩
  have h := c5_addr_amended 0 0 c5S 1 2 rfl (by decide) rfl (by decide) (by decide)
    (by decide) (c5T, .ok (.Continue false)) rfl
  have h2 := h.2.2.2.1 (by decide)
  exact ⟨h2.1, h2.2⟩

/-- C7: `Sub(x, y)` sets register x to the wrapping difference, advances the
program counter by 2 and writes nothing else: every register other than x
(in particular the flag register 15 when x ≠ 15), all memory, the stack and
the display are unchanged — no borrow flag is written. -/
theorem c7_sub_no_borrow_flag (now rnd : Nat) (s : Chip8) (x y : Nat)
    (hp : s.paused = false) (hpc : s.pc + 1 < 4096)
    (hdec : decode (fetchWord s) = .ok (.Sub x y))
    (_hvx : s.regs x < 256) (_hvy : s.regs y < 256) :
    ∀ p, step now rnd s = some p →
      p.2 = .ok (.Continue false) ∧ p.1.pc = (s.pc + 2) % 65536 ∧
      p.1.regs x = (s.regs x + 256 - s.regs y) % 256 ∧
      (∀ j, j ≠ x → p.1.regs j = s.regs j) ∧
      p.1.memory = s.memory ∧ p.1.stack = s.stack ∧ p.1.display = s.display := by
  intro p hstep
  rw [step_eq_exec now rnd s _ hp hpc hdec] at hstep
  simp only [exec, tickUpd_regs] at hstep
  cases hstep
  exact ⟨rfl, by simp, by simp, fun j hjx => by simp [hjx], by simp, by simp, by simp⟩

def c7S : Chip8 :=
  { zeroState with
    memory := fun a => if a = 0x200 then 0x80 else if a = 0x201 then 0x15 else 0,
    regs := fun j => if j = 0 then 5 else if j = 1 then 7 else if j = 15 then 9 else 0 }

def c7T : Chip8 := match step 0 0 c7S with | some p => p.1 | none => c7S

/-- C7 witness: the word 0x8015 is `Sub 0 1`; with register 0 = 5 and
register 1 = 7 the difference wraps to 254 and the flag register keeps its
prior value 9 — no borrow flag is written. -/
theorem c7_witness :
    decode (fetchWord c7S) = .ok (.Sub 0 1) ∧
      step 0 0 c7S = some (c7T, .ok (.Continue false)) ∧
      c7T.regs 0 = 254 ∧ c7T.regs 15 = 9 := by
  refine ⟨rfl, rfl, ?_⟩
  have h := c7_sub_no_borrow_flag 0 0 c7S 0 1 rfl (by decide) rfl (by decide) (by decide)
    (c7T, .ok (.Continue false)) rfl
  exact ⟨h.2.2.1, h.2.2.2.1 15 (by decide)⟩

def c2xS : Chip8 :=
  { zeroState with
    memory := fun a => if a = 0x200 then 0x80 else if a = 0x201 then 0x1E else 0,
    regs := fun j => if j = 1 then 255 else 0 }

def c2xT : Chip8 := match step 0 0 c2xS with | some p => p.1 | none => c2xS

/-- C2 counterexample: the word 0x801E decodes to `Shl 0 1`; with register 1
equal to 0xFF the step sets the flag register to 0xFF & 0xE0 = 224, not the
shifted-out high bit of register 1 (which would be 1, a 0-or-1 value as the
claim states). -/
theorem c2_counterexample :
    decode (fetchWord c2xS) = .ok (.Shl 0 1) ∧ c2xS.regs 1 = 255 ∧
      step 0 0 c2xS = some (c2xT, .ok (.Continue false)) ∧
      c2xT.regs 15 = 224 ∧ c2xT.regs 15 ≠ 1 ∧ c2xT.regs 15 ≠ 0 :=
  ⟨rfl, rfl, rfl, rfl, by decide, by decide⟩

/-- C2 amended: for x ≠ 15 and y ≠ 15, `Shr(x, y)` sets the flag register 15
to `reg[y] & 1` (the shifted-out low bit of the second operand) and register
y to `reg[x] >> 1`, while `Shl(x, y)` sets the flag register to
`reg[y] & 0xE0` — the top three bits of the second operand, not a 0-or-1
high bit — and register y to `(reg[x] << 1) mod 256`; both advance the
program counter by 2.  (When x = 15 the shifted value is derived from the
already-written flag, and when y = 15 the shift result overwrites the
flag.) -/
theorem c2_shift_amended (now rnd : Nat) (s : Chip8) (x y : Nat)
    (hp : s.paused = false) (hpc : s.pc + 1 < 4096) (hx : x ≠ 15) (hy : y ≠ 15) :
    (decode (fetchWord s) = .ok (.Shr x y) →
      ∀ p, step now rnd s = some p →
        p.2 = .ok (.Continue false) ∧ p.1.pc = (s.pc + 2) % 65536 ∧
        p.1.regs 15 = s.regs y &&& 1 ∧ p.1.regs y = s.regs x >>> 1 ∧
        (∀ j, j ≠ y → j ≠ 15 → p.1.regs j = s.regs j) ∧
        p.1.memory = s.memory ∧ p.1.stack = s.stack) ∧
    (decode (fetchWord s) = .ok (.Shl x y) →
      ∀ p, step now rnd s = some p →
        p.2 = .ok (.Continue false) ∧ p.1.pc = (s.pc + 2) % 65536 ∧
        p.1.regs 15 = s.regs y &&& 0xE0 ∧ p.1.regs y = (s.regs x <<< 1) % 256 ∧
        (∀ j, j ≠ y → j ≠ 15 → p.1.regs j = s.regs j) ∧
        p.1.memory = s.memory ∧ p.1.stack = s.stack) := by
  constructor
  · intro hdec p hstep
    rw [step_eq_exec now rnd s _ hp hpc hdec] at hstep
    simp only [exec, tickUpd_regs] at hstep
    cases hstep
    exact ⟨rfl, by simp, by simp [Ne.symm hy], by simp [hx],
      fun j hjy hj15 => by simp [hjy, hj15], by simp, by simp⟩
  · intro hdec p hstep
    rw [step_eq_exec now rnd s _ hp hpc hdec] at hstep
    simp only [exec, tickUpd_regs] at hstep
    cases hstep
    exact ⟨rfl, by simp, by simp [Ne.symm hy], by simp [hx],
      fun j hjy hj15 => by simp [hjy, hj15], by simp, by simp⟩

def c2S : Chip8 :=
  { zeroState with
    memory := fun a => if a = 0x200 then 0x80 else if a = 0x201 then 0x16 else 0,
    regs := fun j => if j = 0 then 5 else if j = 1 then 3 else 0 }

def c2T : Chip8 := match step 0 0 c2S with | some p => p.1 | none => c2S

/-- C2 witness: the word 0x8016 is `Shr 0 1`; with register 0 = 5 and
register 1 = 3 the flag register becomes 3 & 1 = 1 and register 1 becomes
5 >> 1 = 2. -/
theorem c2_witness :
    decode (fetchWord c2S) = .ok (.Shr 0 1) ∧
      step 0 0 c2S = some (c2T, .ok (.Continue false)) ∧
      c2T.regs 15 = 1 ∧ c2T.regs 1 = 2 := by
  refine ⟨rfl, rfl, ?_⟩
  have h := (c2_shift_amended 0 0 c2S 0 1 rfl (by decide) (by decide) (by decide)).1 rfl
    (c2T, .ok (.Continue false)) rfl
  exact ⟨h.2.2.1, h.2.2.2.1⟩


theorem decode_skre_skrne_words (x y : Nat) (hx : x < 16) (hy : y < 16) :
    decode (0x5000 ||| (x <<< 8) ||| (y <<< 4)) = .ok (.Skre x y) ∧
      decode (0x9000 ||| (x <<< 8) ||| (y <<< 4)) = .ok (.Skrne x y) := by
  interval_cases x <;> interval_cases y <;> exact ⟨rfl, rfl⟩

/-- C9: the opcodes 5xy0 (`Skre`) and 9xy0 (`Skrne`) decode to distinct
variants that execute identically: both skip (advance the program counter by
4) exactly when register x differs from register y and advance by 2
otherwise, changing nothing else. -/
theorem c9_skre_skrne_equivalent (rnd x y : Nat) (hx : x < 16) (hy : y < 16) :
    decode (0x5000 ||| (x <<< 8) ||| (y <<< 4)) = .ok (.Skre x y) ∧
    decode (0x9000 ||| (x <<< 8) ||| (y <<< 4)) = .ok (.Skrne x y) ∧
    (∀ v : Chip8, exec rnd (.Skre x y) v = exec rnd (.Skrne x y) v) ∧
    (∀ v : Chip8, ∀ p, exec rnd (.Skre x y) v = some p →
      p.2 = .ok (.Continue false) ∧
      p.1.pc = (v.pc + (if v.regs x = v.regs y then 2 else 4)) % 65536 ∧
      p.1.regs = v.regs ∧ p.1.stack = v.stack ∧ p.1.memory = v.memory ∧
      p.1.display = v.display ∧ p.1.delay = v.delay) := by
  refine ⟨(decode_skre_skrne_words x y hx hy).1, (decode_skre_skrne_words x y hx hy).2,
    fun v => rfl, ?_⟩
  intro v p hstep
  simp only [exec] at hstep
  by_cases hc : v.regs x = v.regs y
  · rw [if_neg (not_not_intro hc)] at hstep
    cases hstep
    exact ⟨rfl, by simp [hc], rfl, rfl, rfl, rfl, rfl⟩
  · rw [if_pos hc] at hstep
    cases hstep
    exact ⟨rfl, by simp [hc], rfl, rfl, rfl, rfl, rfl⟩

def c9V : Chip8 := { zeroState with regs := fun j => if j = 1 then 7 else 0 }

def c9P : Chip8 × Except String StepResult :=
  match exec 0 (.Skre 1 2) c9V with | some p => p | none => (c9V, .ok .End)

/-- C9 witness: with register 1 = 7 and register 2 = 0 the `Skre 1 2`
dispatch (identical to `Skrne 1 2`) skips: the program counter advances by
4 and nothing else changes. -/
theorem c9_witness :
    exec 0 (.Skre 1 2) c9V = some c9P ∧ exec 0 (.Skre 1 2) c9V = exec 0 (.Skrne 1 2) c9V ∧
      c9P.2 = .ok (.Continue false) ∧
      c9P.1.pc = (c9V.pc + (if c9V.regs 1 = c9V.regs 2 then 2 else 4)) % 65536 := by
  have hth := c9_skre_skrne_equivalent 0 1 2 (by decide) (by decide)
  have h := hth.2.2.2 c9V c9P rfl
  exact ⟨rfl, hth.2.2.1 c9V, h.1, h.2.1⟩

/-- C6 amended: for x ≠ 15 and `i + n` within the 4096-byte memory, Draw
XORs each sprite bit b of row r into the framebuffer at row
`(reg[y] + r) mod 32`, column `(reg[x] + b) mod 64`, leaves rows it does not
touch unchanged, sets the flag register to 1 exactly when some lit pixel
met a set sprite bit (collision) and 0 otherwise, advances the program
counter by 2 and returns the continue-with-redraw outcome.  (When x = 15
the column base is re-read from register x after the flag register — which
is register x itself — may have been set by a collision in an earlier row,
so later rows can shift; the claim fails in that case.) -/
theorem c6_draw_amended (now rnd : Nat) (s : Chip8) (x y n : Nat)
    (hp : s.paused = false) (hpc : s.pc + 1 < 4096)
    (hdec : decode (fetchWord s) = .ok (.Draw x y n))
    (hx : x ≠ 15) (hn : n ≤ 15) (hmem : s.regI + n ≤ 4096) :
    ∀ p, step now rnd s = some p →
      p.2 = .ok (.Continue true) ∧ p.1.pc = (s.pc + 2) % 65536 ∧
      (∀ r b, r < n → b < 8 →
        p.1.display ((s.regs y + r) % 32) ((s.regs x + b) % 64) =
          xor (s.display ((s.regs y + r) % 32) ((s.regs x + b) % 64))
            ((s.memory (s.regI + r)).testBit (7 - b))) ∧
      (∀ q1 q2, (∀ r, r < n → q1 ≠ (s.regs y + r) % 32) →
        p.1.display q1 q2 = s.display q1 q2) ∧
      p.1.regs 15 = (if (List.range n).any (fun r => (List.range 8).any
          (fun b => s.display ((s.regs y + r) % 32) ((s.regs x + b) % 64) &&
            (s.memory (s.regI + r)).testBit (7 - b))) then 1 else 0) := by
  intro p hstep
  rw [step_eq_exec now rnd s _ hp hpc hdec] at hstep
  simp only [exec, tickUpd_regI, tickUpd_regs, tickUpd_memory] at hstep
  rw [if_pos hmem] at hstep
  cases hstep
  have hx2 : ((tickUpd now s).setReg 15 0).regs x = s.regs x := by simp [hx]
  refine ⟨rfl, by simp [drawRows_pc], ?_, ?_, ?_⟩
  · intro r b hr hb
    have hhit := drawRows_display_hit s.memory x s.regI (s.regs y) n
      ((tickUpd now s).setReg 15 0) hx r b hr (by omega) hb
    rw [hx2] at hhit
    simpa using hhit
  · intro q1 q2 hq
    have hrow := drawRows_display_row s.memory x s.regI (s.regs y) n
      ((tickUpd now s).setReg 15 0) q1 q2 hq
    simpa using hrow
  · have hflag := drawRows_flag s.memory x s.regI (s.regs y) n
      ((tickUpd now s).setReg 15 0) hx (by omega)
    rw [hx2] at hflag
    simpa using hflag

def c6S : Chip8 :=
  { zeroState with
    memory := fun a => if a = 0x200 then 0xD0 else if a = 0x201 then 0x11
      else if a = 0x300 then 0xFF else 0,
    regs := fun j => if j = 0 then 3 else if j = 1 then 5 else 0,
    regI := 0x300 }

def c6T : Chip8 := match step 0 0 c6S with | some p => p.1 | none => c6S

/-- C6 witness: the word 0xD011 is `Draw 0 1 1`; with register 0 = 3,
register 1 = 5, address register 0x300 and sprite byte 0xFF, stepping sets
the pixel at row 5, column 3 (previously clear) and returns
continue-with-redraw. -/
theorem c6_witness :
    decode (fetchWord c6S) = .ok (.Draw 0 1 1) ∧
      step 0 0 c6S = some (c6T, .ok (.Continue true)) ∧
      c6T.display ((c6S.regs 1 + 0) % 32) ((c6S.regs 0 + 0) % 64) =
        xor (c6S.display ((c6S.regs 1 + 0) % 32) ((c6S.regs 0 + 0) % 64))
          ((c6S.memory (c6S.regI + 0)).testBit (7 - 0)) := by
  refine ⟨rfl, rfl, ?_⟩
  exact (c6_draw_amended 0 0 c6S 0 1 1 rfl (by decide) rfl (by decide) (by decide)
    (by decide) (c6T, .ok (.Continue true)) rfl).2.2.1 0 0 (by decide) (by decide)

def c6xS : Chip8 :=
  { zeroState with
    memory := fun a => if a = 0x200 then 0xDF else if a = 0x201 then 0x02
      else if a = 0x300 then 0x80 else if a = 0x301 then 0x80 else 0,
    regI := 0x300,
    display := fun p q => decide (p = 0) && decide (q = 0) }

def c6xT : Chip8 := match step 0 0 c6xS with | some p => p.1 | none => c6xS

/-- C6 counterexample: the word 0xDF02 is `Draw 15 0 2` (x = 15, the flag
register).  Registers 15 and 0 are 0 and the two sprite rows are 0x80, so
the claim requires the pixel at row (0+1) mod 32 = 1, column (0+0) mod 64
= 0 to be toggled on.  But the collision in row 0 (pixel (0,0) was lit)
sets register 15 to 1 before row 1 re-reads its column base from register
x = 15, so the code lights pixel (1,1) and leaves (1,0) clear. -/
theorem c6_counterexample :
    decode (fetchWord c6xS) = .ok (.Draw 15 0 2) ∧
      c6xS.regs 15 = 0 ∧ c6xS.regs 0 = 0 ∧ c6xS.regI + 2 ≤ 4096 ∧
      c6xS.display 0 0 = true ∧ c6xS.display 1 0 = false ∧
      (c6xS.memory 0x301).testBit 7 = true ∧
      step 0 0 c6xS = some (c6xT, .ok (.Continue true)) ∧
      c6xT.display 1 0 = false ∧
      xor (c6xS.display 1 0) ((c6xS.memory (c6xS.regI + 1)).testBit (7 - 0)) = true ∧
      c6xT.display 1 1 = true :=
  ⟨rfl, rfl, rfl, by decide, by decide, by decide, by decide, rfl, by decide, by decide,
    by decide⟩


/-- C8 amended: apart from `LoadD` (which loads the delay counter from a
register and can lower it by more than one), the delay counter never
increases and decreases by at most one per step call (with floor at zero,
`Nat` subtraction being saturating); and across any sequence of step calls
whose wall-clock times all lie within one 16 ms window, the counter
decrements at most once, no matter how many calls occur. -/
theorem c8_delay_amended :
    (∀ now rnd s p, isLoadDAt s = false → step now rnd s = some p →
      p.1.delay ≤ s.delay ∧ s.delay ≤ p.1.delay + 1) ∧
    (∀ us base (s : Chip8) t, (∀ u ∈ us, base ≤ u ∧ u ≤ base + 16) →
      noLoadDRun us s = true → runSeq us s = some t →
      t.delay ≤ s.delay ∧ s.delay ≤ t.delay + 1) := by
  constructor
  · intro now rnd s p hnl h
    rcases step_delay_cases now rnd s p hnl h with ⟨h1, _⟩ | ⟨_, h1, _⟩ <;> omega
  · intro us base s t hw hrun h
    rcases runSeq_delay_window us base s.delay s.tick s t hw hrun h (Or.inl ⟨rfl, rfl⟩) with
      ⟨h1, _⟩ | ⟨_, h2, h3⟩ <;> omega

def c8xS : Chip8 :=
  { zeroState with
    memory := fun a => if a = 0x200 then 0xF0 else if a = 0x201 then 0x15 else 0,
    delay := 5 }

def c8xT : Chip8 := match step 0 0 c8xS with | some p => p.1 | none => c8xS

/-- C8 counterexample: the word 0xF015 is `LoadD 0`; with delay counter 5 and
register 0 = 0, a single step call (no 16 ms tick elapsed) drops the counter
from 5 to 0 — a decrease of 5 in one step, contradicting the claim that the
counter decreases by at most one per step call. -/
theorem c8_counterexample :
    decode (fetchWord c8xS) = .ok (.LoadD 0) ∧ c8xS.delay = 5 ∧
      step 0 0 c8xS = some (c8xT, .ok (.Continue false)) ∧ c8xT.delay = 0 ∧
      ¬(c8xS.delay ≤ c8xT.delay + 1) :=
  ⟨rfl, rfl, rfl, rfl, by decide⟩

def c8S : Chip8 := { zeroState with delay := 5 }

def c8T : Chip8 := match runSeq [17, 20] c8S with | some t => t | none => c8S

/-- C8 witness: two steps at times 17 and 20 (both within the 16 ms window
that starts at 17) on a machine whose program is the halting `Sys 0`: the
first step fires the delay tick (more than 16 ms after tick time 0) and
drops the counter from 5 to 4, the second does not fire again. -/
theorem c8_witness :
    noLoadDRun [17, 20] c8S = true ∧ runSeq [17, 20] c8S = some c8T ∧
      c8T.delay ≤ c8S.delay ∧ c8S.delay ≤ c8T.delay + 1 := by
  refine ⟨rfl, rfl, ?_⟩
  exact c8_delay_amended.2 [17, 20] 17 c8S c8T
    (by intro u hu; fin_cases hu <;> omega) rfl rfl

/-- C10 amended: `step` does return Ok or Err — rather than panicking —
whenever the machine is paused, or the fetch at `pc, pc + 1` stays inside
the 4096-byte memory and the decoded instruction's own accesses are in
bounds (`Draw`, `Bcd`, `Stor`, `Read` ranges inside memory, `Rand` operand
non-zero, per `safeInstr`).  Outside those conditions `step` can panic, as
the counterexample at pc = 4095 shows, so the original unconditional
no-panic claim is false. -/
theorem c10_step_no_panic_amended (now rnd : Nat) (s : Chip8)
    (h : s.paused = true ∨ (s.pc + 1 < 4096 ∧ safeState s = true)) :
    (step now rnd s).isSome = true := by
  unfold step
  split
  · rfl
  · rename_i hps
    rcases h with hpaused | ⟨hpc, hsafe⟩
    · exact absurd hpaused hps
    · rw [tickUpd_pc, if_pos hpc, fetchWord_tickUpd]
      cases hdec : decode (fetchWord s) with
      | error e => rfl
      | ok i =>
          show (exec rnd i (tickUpd now s)).isSome = true
          simp only [safeState, hdec] at hsafe
          exact exec_total rnd i (tickUpd now s)
            ((safeInstr_tickUpd now s i).trans hsafe)

def c10S : Chip8 := { zeroState with pc := 4095 }

/-- C10 counterexample: with program counter 4095 the fetch reads
`memory[4096]`, out of bounds for the 4096-byte memory array, so `step`
panics (modelled as `none`) instead of returning an Ok or Err value as the
claim states. -/
theorem c10_counterexample :
    c10S.pc = 4095 ∧ c10S.paused = false ∧ step 0 0 c10S = none :=
  ⟨rfl, rfl, rfl⟩

/-- C10 witness: the all-zero machine (word 0x0000 decodes to the halting
`Sys 0`, which accesses no memory) satisfies the in-bounds side conditions
and its step returns a value. -/
theorem c10_witness :
    (zeroState.paused = true ∨ (zeroState.pc + 1 < 4096 ∧ safeState zeroState = true)) ∧
      (step 0 0 zeroState).isSome = true :=
  ⟨Or.inr ⟨by decide, rfl⟩,
    c10_step_no_panic_amended 0 0 zeroState (Or.inr ⟨by decide, rfl⟩)⟩

end Chip8Spec
